import Mathlib

/-!
Verification of the URLManager server core: the redirect resolver
(`followRedirects`), the in-memory resolution store (`MemStorage`), and the
route handlers registered in `registerRoutes` (resolve-url, resolved-urls,
analyze-file, merge-files).

JavaScript strings are modelled as Lean `String`; the JS string builtins used
by the source (`startsWith`, `trim`, `split('\n')`, `===`) are modelled as
executable functions over the character data.  The external dependencies of
the resolver — the network transport (`fetch`) and the WHATWG `URL` library —
are parameters (`World`, `UrlLib`) of the embedding.
-/

/-- Model of JS `String.prototype.startsWith`: character-sequence prefix test. -/
def jsStartsWith (s pre : String) : Bool :=
  pre.data.isPrefixOf s.data

/-- Model of JS `String.prototype.trim`: drop leading and trailing whitespace. -/
def jsTrim (s : String) : String :=
  ⟨((s.data.dropWhile Char.isWhitespace).reverse.dropWhile Char.isWhitespace).reverse⟩

/-- Split a character list at each occurrence of `sep`, keeping empty pieces,
accumulating the current piece in reverse in `acc` (model of JS `split`). -/
def splitCharAux (sep : Char) : List Char → List Char → List String
  | [], acc => [⟨acc.reverse⟩]
  | c :: cs, acc =>
    if c = sep then ⟨acc.reverse⟩ :: splitCharAux sep cs []
    else splitCharAux sep cs (c :: acc)

/-- Model of JS `content.split('\n')`. -/
def jsSplitNewline (s : String) : List String :=
  splitCharAux '\n' s.data []

/-- HTTP request method used by a probe in `followRedirects`. -/
inductive Method where
  | head
  | get
deriving DecidableEq, Repr

/-- Outcome of one `fetch` call: a transport-level failure carrying a message,
or an HTTP response carrying a status and the `Location` header value
(`none` when the header is absent). -/
inductive FetchOutcome where
  | fail (msg : String)
  | resp (status : Nat) (location : Option String)
deriving DecidableEq, Repr

/-- The network transport: what `fetch` answers for each method and URL.
External dependency of `followRedirects`, supplied as a parameter. -/
def World := Method → String → FetchOutcome

/-- The parts of the WHATWG `URL` library used by `followRedirects`:
the `protocol` and `host` getters of `new URL(currentUrl)`, its canonical
`href`, and relative resolution via `new URL(location, base).href`.
External dependency, supplied as a parameter. -/
structure UrlLib where
  protocol : String → String
  host : String → String
  href : String → String
  resolveRel : String → String → String

/-- Typed form of the two errors `followRedirects` can throw. -/
inductive ResolutionError where
  | tooManyRedirects
  | transportFailure (msg : String)
deriving DecidableEq, Repr

deriving instance DecidableEq for Except

/-- How the probe loop advances the current URL for a redirect `location`
value, translated from `followRedirects` (the HEAD and GET branches of the
source contain two identical copies of this code). -/
def nextUrl (U : UrlLib) (location currentUrl : String) : String :=
  if jsStartsWith location "/" then
    U.protocol currentUrl ++ "//" ++ U.host currentUrl ++ location
  else if jsStartsWith location "http" then
    location
  else
    U.resolveRel location (U.href currentUrl)

/-- Decision `followRedirects` makes on a response: `some next` when the
status is in 300–399 and the `Location` header is present and non-empty
(JS truthiness of `response.headers.get('location')`), in which case the
loop continues at `next`; `none` when the loop returns `currentUrl`. -/
def respRedirect (U : UrlLib) (currentUrl : String) (status : Nat)
    (location : Option String) : Option String :=
  if 300 ≤ status ∧ status < 400 then
    match location with
    | some loc => if loc = "" then none else some (nextUrl U loc currentUrl)
    | none => none
  else none

/-- The `while (redirectCount < maxRedirects)` loop of `followRedirects`;
the fuel argument is `maxRedirects - redirectCount`.  Besides the result it
returns the trace of probes issued (method and URL of each `fetch` call). -/
def followLoop (W : World) (U : UrlLib) :
    Nat → String → Except ResolutionError String × List (Method × String)
  | 0, _ => (Except.error ResolutionError.tooManyRedirects, [])
  | fuel + 1, currentUrl =>
    match W Method.head currentUrl with
    | FetchOutcome.resp status location =>
      match respRedirect U currentUrl status location with
      | some next =>
        let r := followLoop W U fuel next
        (r.1, (Method.head, currentUrl) :: r.2)
      | none => (Except.ok currentUrl, [(Method.head, currentUrl)])
    | FetchOutcome.fail _ =>
      match W Method.get currentUrl with
      | FetchOutcome.resp status location =>
        match respRedirect U currentUrl status location with
        | some next =>
          let r := followLoop W U fuel next
          (r.1, (Method.head, currentUrl) :: (Method.get, currentUrl) :: r.2)
        | none =>
          (Except.ok currentUrl, [(Method.head, currentUrl), (Method.get, currentUrl)])
      | FetchOutcome.fail msg2 =>
        (Except.error (ResolutionError.transportFailure
            ("Failed to resolve URL: " ++ msg2)),
         [(Method.head, currentUrl), (Method.get, currentUrl)])

/-- Scheme normalization at the top of `followRedirects`: prepend `https://`
unless the input starts with `http://` or `https://`. -/
def normalizeUrl (url : String) : String :=
  if !(jsStartsWith url "http://") && !(jsStartsWith url "https://") then
    "https://" ++ url
  else url

/-- `followRedirects`, with its probe trace. -/
def followRedirectsT (W : World) (U : UrlLib) (url : String) (maxRedirects : Nat) :
    Except ResolutionError String × List (Method × String) :=
  followLoop W U maxRedirects (normalizeUrl url)

/-- Result of `followRedirects(url, maxRedirects)`. -/
def followRedirects (W : World) (U : UrlLib) (url : String) (maxRedirects : Nat) :
    Except ResolutionError String :=
  (followRedirectsT W U url maxRedirects).1

/-- What one iteration of the probe loop decides at a URL. -/
inductive HopResult where
  | redirect (next : String)
  | final
  | failure (msg : String)
deriving DecidableEq, Repr

/-- The decision of one loop iteration at URL `u`: follow a redirect, stop
successfully at `u`, or fail (HEAD and GET both failed at transport level). -/
def hopResult (W : World) (U : UrlLib) (u : String) : HopResult :=
  match W Method.head u with
  | FetchOutcome.resp status location =>
    match respRedirect U u status location with
    | some next => HopResult.redirect next
    | none => HopResult.final
  | FetchOutcome.fail _ =>
    match W Method.get u with
    | FetchOutcome.resp status location =>
      match respRedirect U u status location with
      | some next => HopResult.redirect next
      | none => HopResult.final
    | FetchOutcome.fail m => HopResult.failure m

/-- The URL reached after `n` consecutive redirect hops from `u`, or `none`
if some earlier hop is not a redirect. -/
def redirectChain (W : World) (U : UrlLib) : Nat → String → Option String
  | 0, u => some u
  | n + 1, u =>
    match hopResult W U u with
    | HopResult.redirect next => redirectChain W U n next
    | _ => none

/-- Number of HEAD probes in a trace: each loop iteration issues exactly one. -/
def headProbes (tr : List (Method × String)) : Nat :=
  (tr.filter fun p => p.1 == Method.head).length

/-- A stored resolution record (`ResolvedUrl` of `shared/schema`): numeric
identifier, the URL as submitted, the resolved destination, and the creation
timestamp (modelled as the epoch-milliseconds value `Date#getTime` returns). -/
structure ResolvedUrl where
  id : Nat
  originalUrl : String
  resolvedUrl : String
  timestamp : Nat
deriving DecidableEq, Repr

/-- `MemStorage`: the `Map`'s records in insertion order (JS `Map` iterates
in insertion order, and every inserted key is fresh), plus `currentId`. -/
structure MemStorage where
  entries : List ResolvedUrl
  currentId : Nat
deriving DecidableEq, Repr

/-- The store built by the `MemStorage` constructor. -/
def MemStorage.init : MemStorage := ⟨[], 1⟩

/-- `resolveAndStoreUrl`: allocate the next id, post-increment the counter,
stamp the time (passed in, since `new Date()` is an external effect), insert.
Returns the new record together with the updated store. -/
def MemStorage.resolveAndStoreUrl (s : MemStorage)
    (originalUrl resolvedUrl : String) (now : Nat) : ResolvedUrl × MemStorage :=
  let entry : ResolvedUrl := ⟨s.currentId, originalUrl, resolvedUrl, now⟩
  (entry, ⟨s.entries ++ [entry], s.currentId + 1⟩)

/-- `getAllResolvedUrls`: `Array.from(map.values()).sort((a, b) =>
b.timestamp.getTime() - a.timestamp.getTime())`.  JS `Array.prototype.sort`
is a stable sort whose comparator puts `a` before `b` when it returns a
negative number, so it is modelled by a stable merge sort with
`le a b ↔ b.timestamp ≤ a.timestamp`. -/
def MemStorage.getAllResolvedUrls (s : MemStorage) : List ResolvedUrl :=
  s.entries.mergeSort fun a b => decide (b.timestamp ≤ a.timestamp)

/-- `clearAllResolvedUrls`: `map.clear()`; `currentId` is untouched. -/
def MemStorage.clearAllResolvedUrls (s : MemStorage) : MemStorage :=
  ⟨[], s.currentId⟩

/-- `checkUrlExists`: some current record's `resolvedUrl` is `===` to the
argument. -/
def MemStorage.checkUrlExists (s : MemStorage) (resolvedUrl : String) : Bool :=
  s.entries.any fun u => u.resolvedUrl == resolvedUrl

/-- Response of the `POST /api/resolve-url` handler, by HTTP status:
400 (zod rejected the body), 409 (duplicate resolved URL), 500 (resolver
threw), or the 200 `res.json(result)` carrying the stored record. -/
inductive ResolveResponse where
  | invalid
  | conflict (resolvedUrl : String)
  | serverFailure (e : ResolutionError)
  | created (entry : ResolvedUrl)
deriving DecidableEq, Repr

/-- The `POST /api/resolve-url` handler: validate with `urlResolveSchema`
(`V` models zod's `z.string().url()` check), resolve, reject duplicates with
409 before storing, otherwise store and return the new record.  Returns the
response together with the store state after the request. -/
def resolveUrlRoute (V : String → Bool) (W : World) (U : UrlLib)
    (s : MemStorage) (url : String) (now : Nat) : ResolveResponse × MemStorage :=
  if V url then
    match followRedirects W U url 10 with
    | Except.ok resolvedUrl =>
      if s.checkUrlExists resolvedUrl then
        (ResolveResponse.conflict resolvedUrl, s)
      else
        let r := s.resolveAndStoreUrl url resolvedUrl now
        (ResolveResponse.created r.1, r.2)
    | Except.error e => (ResolveResponse.serverFailure e, s)
  else (ResolveResponse.invalid, s)

/-- First-occurrence deduplication, the model of `Array.from(new Set(lines))`:
`seen` holds the values already emitted. -/
def setDedupAux (seen : List String) : List String → List String
  | [] => []
  | x :: xs =>
    if x ∈ seen then setDedupAux seen xs
    else x :: setDedupAux (x :: seen) xs

/-- Model of `Array.from(new Set(l))`: unique values in first-occurrence order. -/
def setDedup (l : List String) : List String := setDedupAux [] l

/-- The shared line transform of the analyze-file and merge-files handlers:
`content.split('\n').map(line => line.trim()).filter(line => line.length > 0)`. -/
def processContent (content : String) : List String :=
  ((jsSplitNewline content).map jsTrim).filter fun line => line.length > 0

/-- Payload returned by `/api/analyze-file` and `/api/merge-files`. -/
structure FileAnalysis where
  totalLines : Nat
  uniqueLines : Nat
  duplicateLines : Nat
  urls : List String
deriving DecidableEq, Repr

/-- The `POST /api/analyze-file` handler on the `content` field. -/
def analyzeFileRoute (content : String) : FileAnalysis :=
  let lines := processContent content
  let uniqueLines := setDedup lines
  ⟨lines.length, uniqueLines.length, lines.length - uniqueLines.length, uniqueLines⟩

/-- The accumulation loop of `/api/merge-files`: push every file's processed
lines into `allLines`. -/
def mergeAllLines (files : List String) : List String :=
  files.foldl (fun allLines fileContent => allLines ++ processContent fileContent) []

/-- The `POST /api/merge-files` handler on the `files` array. -/
def mergeFilesRoute (files : List String) : FileAnalysis :=
  let allLines := mergeAllLines files
  let uniqueLines := setDedup allLines
  ⟨allLines.length, uniqueLines.length, allLines.length - uniqueLines.length, uniqueLines⟩

/-- One store-mutating request: a successful resolve-url request (which calls
`resolveAndStoreUrl`) or a clear request (which calls `clearAllResolvedUrls`). -/
inductive StoreOp where
  | resolve (originalUrl resolvedUrl : String) (now : Nat)
  | clear

/-- Run a sequence of store operations. -/
def runOps : MemStorage → List StoreOp → MemStorage
  | s, [] => s
  | s, StoreOp.resolve o r n :: ops => runOps (s.resolveAndStoreUrl o r n).2 ops
  | s, StoreOp.clear :: ops => runOps s.clearAllResolvedUrls ops

/-- The identifiers handed out by `resolveAndStoreUrl` along a sequence of
operations, in order of issue. -/
def issuedIds : MemStorage → List StoreOp → List Nat
  | _, [] => []
  | s, StoreOp.resolve o r n :: ops =>
    (s.resolveAndStoreUrl o r n).1.id :: issuedIds (s.resolveAndStoreUrl o r n).2 ops
  | s, StoreOp.clear :: ops => issuedIds s.clearAllResolvedUrls ops

/-- Helper for `hasScheme`: after the leading letter, scheme characters
(letter, digit, `+`, `-`, `.`) until a `:` is reached. -/
def hasSchemeAux : List Char → Bool
  | [] => false
  | c :: cs =>
    if c = ':' then true
    else (c.isAlpha || c.isDigit || c = '+' || c = '-' || c = '.') && hasSchemeAux cs

/-- Modelled from the spec: "absolute URL (starts with a scheme)" — a scheme
per RFC 3986 is `ALPHA *( ALPHA / DIGIT / "+" / "-" / "." )` followed by `:`. -/
def hasScheme (s : String) : Bool :=
  match s.data with
  | [] => false
  | c :: cs => c.isAlpha && hasSchemeAux cs

/-- Modelled from the spec: the claimed `Location` handling — an absolute URL
(starts with a scheme) is used as-is, a root-relative path (starts with `/`)
is combined with the current URL's scheme and host, anything else is resolved
relative to the current URL per standard URL-relative-resolution rules. -/
def specNextUrl (U : UrlLib) (location currentUrl : String) : String :=
  if hasScheme location then location
  else if jsStartsWith location "/" then
    U.protocol currentUrl ++ "//" ++ U.host currentUrl ++ location
  else
    U.resolveRel location (U.href currentUrl)

/-- Characters of `l` before the first occurrence of `c`. -/
def takeUntilChar (c : Char) : List Char → List Char
  | [] => []
  | x :: xs => if x = c then [] else x :: takeUntilChar c xs

/-- Characters of `l` after the first occurrence of `c` (or `[]`). -/
def dropPastChar (c : Char) : List Char → List Char
  | [] => []
  | x :: xs => if x = c then xs else dropPastChar c xs

/-- Everything up to and including the last `/` of `l`. -/
def dropLastSegment (l : List Char) : List Char :=
  (l.reverse.dropWhile fun c => c ≠ '/').reverse

/-- Modelled from the spec: the `protocol` getter of the WHATWG `URL` library
(external to the repository) on URLs of the shape `scheme://host/path`. -/
def refProtocol (s : String) : String :=
  ⟨takeUntilChar ':' s.data ++ [ ':']⟩

/-- Modelled from the spec: the `host` getter of the WHATWG `URL` library
(external to the repository) on URLs of the shape `scheme://host/path`. -/
def refHost (s : String) : String :=
  match dropPastChar ':' s.data with
  | '/' :: '/' :: rest => ⟨takeUntilChar '/' rest⟩
  | other => ⟨takeUntilChar '/' other⟩

/-- Modelled from the spec: "standard URL-relative-resolution rules"
(`new URL(location, base).href`, external to the repository), for bases of
the shape `scheme://host/path` without query or fragment: an absolute
location is used as-is, a root-relative one is combined with the base's
scheme and host, and otherwise the base path's last segment is replaced by
the location (RFC 3986 §5.3 merge). -/
def refResolveRel (location base : String) : String :=
  if hasScheme location then location
  else if jsStartsWith location "/" then
    refProtocol base ++ "//" ++ refHost base ++ location
  else
    ⟨dropLastSegment base.data⟩ ++ location

/-- A concrete standard-behaved `UrlLib` for witnesses and counterexamples. -/
def refUrlLib : UrlLib :=
  ⟨refProtocol, refHost, fun s => s, refResolveRel⟩

/-- Modelled from the spec: the claimed `listAll` order — most recent first,
and on equal timestamps the record with the higher identifier first. -/
def specHigherIdFirst (l : List ResolvedUrl) : Prop :=
  l.Pairwise fun a b =>
    b.timestamp < a.timestamp ∨ (a.timestamp = b.timestamp ∧ b.id < a.id)

instance (l : List ResolvedUrl) : Decidable (specHigherIdFirst l) :=
  inferInstanceAs (Decidable (l.Pairwise _))

theorem isPrefixOf_iff_exists : ∀ (p s : List Char),
    p.isPrefixOf s = true ↔ ∃ t, s = p ++ t := by
  intro p
  induction p with
  | nil =>
    intro s
    simp [List.isPrefixOf]
  | cons a as ih =>
    intro s
    cases s with
    | nil => simp [List.isPrefixOf]
    | cons b bs =>
      simp only [List.isPrefixOf, Bool.and_eq_true, beq_iff_eq, ih bs, List.cons_append,
        List.cons.injEq]
      constructor
      · rintro ⟨rfl, t, rfl⟩
        exact ⟨t, rfl, rfl⟩
      · rintro ⟨t, rfl, rfl⟩
        exact ⟨rfl, t, rfl⟩

theorem jsStartsWith_iff (s p : String) :
    jsStartsWith s p = true ↔ ∃ t, s.data = p.data ++ t :=
  isPrefixOf_iff_exists p.data s.data

theorem hasScheme_eq_false_of_slash (loc : String) (h : jsStartsWith loc "/" = true) :
    hasScheme loc = false := by
  rw [jsStartsWith_iff] at h
  obtain ⟨t, hd⟩ := h
  rw [show ("/" : String).data = [ '/'] from rfl, List.singleton_append] at hd
  simp only [hasScheme, hd]
  rfl

theorem not_slash_of_http (loc : String) (h : jsStartsWith loc "http" = true) :
    jsStartsWith loc "/" = false := by
  rw [jsStartsWith_iff] at h
  obtain ⟨t, hd⟩ := h
  rw [show ("http" : String).data = [ 'h', 't', 't', 'p'] from rfl] at hd
  cases hB : jsStartsWith loc "/" with
  | false => rfl
  | true =>
    rw [jsStartsWith_iff] at hB
    obtain ⟨t2, hd2⟩ := hB
    rw [show ("/" : String).data = [ '/'] from rfl] at hd2
    rw [hd] at hd2
    simp only [List.cons_append, List.nil_append, List.singleton_append,
      List.cons.injEq] at hd2
    exact absurd hd2.1 (by decide)

theorem not_slash_of_hasScheme (loc : String) (h : hasScheme loc = true) :
    jsStartsWith loc "/" = false := by
  cases hB : jsStartsWith loc "/" with
  | false => rfl
  | true => rw [hasScheme_eq_false_of_slash loc hB] at h; cases h

theorem followLoop_fst_redirect (W : World) (U : UrlLib) (fuel : Nat) (u next : String)
    (h : hopResult W U u = HopResult.redirect next) :
    (followLoop W U (fuel + 1) u).1 = (followLoop W U fuel next).1 := by
  unfold hopResult at h
  cases hW : W Method.head u with
  | resp status location =>
    simp only [hW] at h
    cases hR : respRedirect U u status location with
    | some n2 =>
      simp only [hR] at h
      cases h
      simp [followLoop, hW, hR]
    | none => simp only [hR] at h; simp at h
  | fail m =>
    simp only [hW] at h
    cases hG : W Method.get u with
    | resp status location =>
      simp only [hG] at h
      cases hR : respRedirect U u status location with
      | some n2 =>
        simp only [hR] at h
        cases h
        simp [followLoop, hW, hG, hR]
      | none => simp only [hR] at h; simp at h
    | fail m2 => simp only [hG] at h; simp at h

theorem followLoop_fst_final (W : World) (U : UrlLib) (fuel : Nat) (u : String)
    (h : hopResult W U u = HopResult.final) :
    (followLoop W U (fuel + 1) u).1 = Except.ok u := by
  unfold hopResult at h
  cases hW : W Method.head u with
  | resp status location =>
    simp only [hW] at h
    cases hR : respRedirect U u status location with
    | some n2 => simp only [hR] at h; simp at h
    | none => simp [followLoop, hW, hR]
  | fail m =>
    simp only [hW] at h
    cases hG : W Method.get u with
    | resp status location =>
      simp only [hG] at h
      cases hR : respRedirect U u status location with
      | some n2 => simp only [hR] at h; simp at h
      | none => simp [followLoop, hW, hG, hR]
    | fail m2 => simp only [hG] at h; simp at h

theorem followLoop_trace_head (W : World) (U : UrlLib) (fuel : Nat) (u : String) :
    ((followLoop W U (fuel + 1) u).2).head? = some (Method.head, u) := by
  cases hW : W Method.head u with
  | resp status location =>
    cases hR : respRedirect U u status location with
    | some next => simp [followLoop, hW, hR]
    | none => simp [followLoop, hW, hR]
  | fail m =>
    cases hG : W Method.get u with
    | resp status location =>
      cases hR : respRedirect U u status location with
      | some next => simp [followLoop, hW, hG, hR]
      | none => simp [followLoop, hW, hG, hR]
    | fail m2 => simp [followLoop, hW, hG]

theorem followLoop_ok_of_chain (W : World) (U : UrlLib) :
    ∀ (n fuel : Nat) (u v : String), redirectChain W U n u = some v → n < fuel →
      hopResult W U v = HopResult.final →
      (followLoop W U fuel u).1 = Except.ok v := by
  intro n
  induction n with
  | zero =>
    intro fuel u v hchain hlt hfin
    obtain rfl : u = v := by simpa [redirectChain] using hchain
    obtain ⟨f, rfl⟩ : ∃ f, fuel = f + 1 := ⟨fuel - 1, by omega⟩
    exact followLoop_fst_final W U f u hfin
  | succ n ih =>
    intro fuel u v hchain hlt hfin
    cases hhop : hopResult W U u with
    | redirect next =>
      obtain ⟨f, rfl⟩ : ∃ f, fuel = f + 1 := ⟨fuel - 1, by omega⟩
      rw [followLoop_fst_redirect W U f u next hhop]
      refine ih f next v ?_ (by omega) hfin
      simpa [redirectChain, hhop] using hchain
    | final => simp [redirectChain, hhop] at hchain
    | failure m => simp [redirectChain, hhop] at hchain

theorem followLoop_exhaust (W : World) (U : UrlLib) :
    ∀ (fuel : Nat) (u v : String), redirectChain W U fuel u = some v →
      (followLoop W U fuel u).1 = Except.error ResolutionError.tooManyRedirects := by
  intro fuel
  induction fuel with
  | zero => intro u v h; simp [followLoop]
  | succ f ih =>
    intro u v hchain
    cases hhop : hopResult W U u with
    | redirect next =>
      rw [followLoop_fst_redirect W U f u next hhop]
      refine ih next v ?_
      simpa [redirectChain, hhop] using hchain
    | final => simp [redirectChain, hhop] at hchain
    | failure m => simp [redirectChain, hhop] at hchain

theorem headProbes_followLoop_le (W : World) (U : UrlLib) :
    ∀ (fuel : Nat) (u : String), headProbes (followLoop W U fuel u).2 ≤ fuel := by
  intro fuel
  induction fuel with
  | zero => intro u; simp [followLoop, headProbes]
  | succ f ih =>
    intro u
    cases hW : W Method.head u with
    | resp status location =>
      cases hR : respRedirect U u status location with
      | some next =>
        have h := ih next
        simp [followLoop, hW, hR, headProbes] at h ⊢
        omega
      | none => simp [followLoop, hW, hR, headProbes]
    | fail m =>
      cases hG : W Method.get u with
      | resp status location =>
        cases hR : respRedirect U u status location with
        | some next =>
          have h := ih next
          simp [followLoop, hW, hG, hR, headProbes] at h ⊢
          omega
        | none => simp [followLoop, hW, hG, hR, headProbes]
      | fail m2 => simp [followLoop, hW, hG, headProbes]

/-- Example transport: `https://a.example` answers 301 with Location
`https://b.example`; every other URL answers 200. -/
def chainWorld : World := fun _ u =>
  if u = "https://a.example" then FetchOutcome.resp 301 (some "https://b.example")
  else FetchOutcome.resp 200 none

/-- Example transport: every URL answers 301 redirecting to itself. -/
def loopWorld : World := fun _ u => FetchOutcome.resp 301 (some u)

/-- Example transport: every probe fails at the transport level. -/
def failWorld : World := fun _ _ => FetchOutcome.fail "ECONNREFUSED"

/-- C1: followRedirects always terminates within `maxHops` probe iterations:
if `n < maxHops` consecutive redirects lead from the normalized input to a
URL `v` whose response is not a redirect, the result is `Except.ok v`; if the
first `maxHops` responses are all redirects the result is `TooManyRedirects`;
and the loop issues at most `maxHops` HEAD probes (one per iteration). -/
theorem followRedirects_bounded (W : World) (U : UrlLib) (url : String)
    (maxHops n : Nat) (v : String)
    (hchain : redirectChain W U n (normalizeUrl url) = some v) :
    (n < maxHops → hopResult W U v = HopResult.final →
        followRedirects W U url maxHops = Except.ok v)
      ∧ (n = maxHops →
        followRedirects W U url maxHops = Except.error ResolutionError.tooManyRedirects)
      ∧ headProbes (followRedirectsT W U url maxHops).2 ≤ maxHops := by
  refine ⟨?_, ?_, ?_⟩
  · intro hlt hfin
    exact followLoop_ok_of_chain W U n maxHops (normalizeUrl url) v hchain hlt hfin
  · rintro rfl
    exact followLoop_exhaust W U n (normalizeUrl url) v hchain
  · exact headProbes_followLoop_le W U maxHops (normalizeUrl url)

theorem followRedirects_bounded_witness :
    followRedirects chainWorld refUrlLib "a.example" 10 = Except.ok "https://b.example"
      ∧ followRedirects loopWorld refUrlLib "https://x" 10
        = Except.error ResolutionError.tooManyRedirects := by
  constructor
  · exact (followRedirects_bounded chainWorld refUrlLib "a.example" 10 1
      "https://b.example" (by decide)).1 (by decide) (by decide)
  · exact (followRedirects_bounded loopWorld refUrlLib "https://x" 10 10
      "https://x" (by decide)).2.1 rfl

/-- C5: when the HEAD probe fails at the transport level, the loop retries
exactly once with a GET probe to the same URL; if the GET also fails, the
iteration returns a `TransportFailure` carrying the underlying cause, having
issued exactly the HEAD probe and the one GET retry, and probes no further. -/
theorem headGetFallback (W : World) (U : UrlLib) (fuel : Nat) (u m1 m2 : String)
    (h1 : W Method.head u = FetchOutcome.fail m1)
    (h2 : W Method.get u = FetchOutcome.fail m2) :
    followLoop W U (fuel + 1) u
      = (Except.error (ResolutionError.transportFailure
          ("Failed to resolve URL: " ++ m2)),
        [(Method.head, u), (Method.get, u)]) := by
  simp [followLoop, h1, h2]

theorem headGetFallback_witness :
    followLoop failWorld refUrlLib 10 "https://x"
      = (Except.error (ResolutionError.transportFailure
          ("Failed to resolve URL: " ++ "ECONNREFUSED")),
        [(Method.head, "https://x"), (Method.get, "https://x")]) :=
  headGetFallback failWorld refUrlLib 9 "https://x" "ECONNREFUSED" "ECONNREFUSED" rfl rfl

/-- C7: inputs that start with neither `http://` nor `https://` are probed
first at `https://` prepended to the input; inputs starting with either
prefix are probed unchanged. -/
theorem normalize_first_probe (W : World) (U : UrlLib) (url : String) (maxHops : Nat)
    (hpos : 0 < maxHops) :
    (jsStartsWith url "http://" = false → jsStartsWith url "https://" = false →
        (followRedirectsT W U url maxHops).2.head?
          = some (Method.head, "https://" ++ url))
      ∧ (jsStartsWith url "http://" = true ∨ jsStartsWith url "https://" = true →
        (followRedirectsT W U url maxHops).2.head? = some (Method.head, url)) := by
  obtain ⟨f, rfl⟩ : ∃ f, maxHops = f + 1 := ⟨maxHops - 1, by omega⟩
  constructor
  · intro h1 h2
    have hn : normalizeUrl url = "https://" ++ url := by simp [normalizeUrl, h1, h2]
    rw [followRedirectsT, hn]
    exact followLoop_trace_head W U f ("https://" ++ url)
  · intro h
    have hn : normalizeUrl url = url := by
      rcases h with h | h <;> simp [normalizeUrl, h]
    rw [followRedirectsT, hn]
    exact followLoop_trace_head W U f url

theorem normalize_first_probe_witness :
    (followRedirectsT chainWorld refUrlLib "example.com" 10).2.head?
        = some (Method.head, "https://" ++ "example.com")
      ∧ (followRedirectsT chainWorld refUrlLib "http://example.com" 10).2.head?
        = some (Method.head, "http://example.com") :=
  ⟨(normalize_first_probe chainWorld refUrlLib "example.com" 10 (by decide)).1
      (by decide) (by decide),
   (normalize_first_probe chainWorld refUrlLib "http://example.com" 10 (by decide)).2
      (Or.inl (by decide))⟩

theorem refResolveRel_abs : ∀ (l b : String), hasScheme l = true → refResolveRel l b = l := by
  intro l b h
  simp [refResolveRel, h]

/-- C2 counterexample: the code's absolute-URL test is the literal prefix
`http`, not "starts with a scheme", so the relative `Location` value
`httpfoo/page` (no scheme) is used as-is, while the claim requires standard
relative resolution against `https://host/a/old`, which yields
`https://host/a/httpfoo/page`. -/
theorem nextUrl_httpPrefix_counterexample :
    nextUrl refUrlLib "httpfoo/page" "https://host/a/old" = "httpfoo/page"
      ∧ specNextUrl refUrlLib "httpfoo/page" "https://host/a/old"
          = "https://host/a/httpfoo/page"
      ∧ refResolveRel "httpfoo/page" "https://host/a/old"
          = "https://host/a/httpfoo/page"
      ∧ nextUrl refUrlLib "httpfoo/page" "https://host/a/old"
          ≠ specNextUrl refUrlLib "httpfoo/page" "https://host/a/old" :=
  ⟨by decide, by decide, by decide, by decide⟩

/-- C2 (amended): the probe loop advances to the `Location` value as-is when
it starts with the literal prefix `http` (whether or not it is an absolute
URL), to scheme+host+Location when it starts with `/`, and otherwise to the
standard relative resolution of the Location against the current URL; for a
`resolveRel` that returns absolute URLs as-is, this agrees with the claimed
scheme-based dispatch except on scheme-less Locations starting with `http`.
In particular `other/path` at `https://host/a/old` yields
`https://host/a/other/path` and `/path` at `https://host/old` yields
`https://host/path`. -/
theorem nextUrl_dispatch (U : UrlLib)
    (habs : ∀ l b, hasScheme l = true → U.resolveRel l b = l)
    (loc cur : String) :
    (jsStartsWith loc "http" = false → nextUrl U loc cur = specNextUrl U loc cur)
      ∧ (hasScheme loc = true → nextUrl U loc cur = specNextUrl U loc cur)
      ∧ (jsStartsWith loc "http" = true → nextUrl U loc cur = loc)
      ∧ nextUrl refUrlLib "other/path" "https://host/a/old" = "https://host/a/other/path"
      ∧ nextUrl refUrlLib "/path" "https://host/old" = "https://host/path" := by
  refine ⟨?_, ?_, ?_, by decide, by decide⟩
  · intro hhttp
    cases hsl : jsStartsWith loc "/" with
    | true =>
      have hsc : hasScheme loc = false := hasScheme_eq_false_of_slash loc hsl
      simp [nextUrl, specNextUrl, hsl, hsc]
    | false =>
      cases hsc : hasScheme loc with
      | true =>
        simp [nextUrl, specNextUrl, hsl, hsc, hhttp, habs loc (U.href cur) hsc]
      | false =>
        simp [nextUrl, specNextUrl, hsl, hsc, hhttp]
  · intro hsc
    have hsl : jsStartsWith loc "/" = false := not_slash_of_hasScheme loc hsc
    cases hhttp : jsStartsWith loc "http" with
    | true => simp [nextUrl, specNextUrl, hsl, hsc, hhttp]
    | false => simp [nextUrl, specNextUrl, hsl, hsc, hhttp, habs loc (U.href cur) hsc]
  · intro hhttp
    have hsl : jsStartsWith loc "/" = false := not_slash_of_http loc hhttp
    simp [nextUrl, hsl, hhttp]

theorem nextUrl_dispatch_witness :
    nextUrl refUrlLib "ftp://files.example/x" "https://host/a/old" = "ftp://files.example/x"
      ∧ nextUrl refUrlLib "other/path" "https://host/a/old"
        = "https://host/a/other/path" :=
  ⟨((nextUrl_dispatch refUrlLib refResolveRel_abs "ftp://files.example/x"
      "https://host/a/old").2.1 (by decide)).trans (by decide),
   (nextUrl_dispatch refUrlLib refResolveRel_abs "other/path"
      "https://host/a/old").2.2.2.1⟩

theorem timestamp_le_trans : ∀ (a b c : ResolvedUrl),
    decide (b.timestamp ≤ a.timestamp) = true →
    decide (c.timestamp ≤ b.timestamp) = true →
    decide (c.timestamp ≤ a.timestamp) = true := by
  intro a b c
  simp only [decide_eq_true_eq]
  omega

theorem timestamp_le_total : ∀ (a b : ResolvedUrl),
    (decide (b.timestamp ≤ a.timestamp) || decide (a.timestamp ≤ b.timestamp)) = true := by
  intro a b
  simp only [Bool.or_eq_true, decide_eq_true_eq]
  omega

theorem getAll_perm (s : MemStorage) : s.getAllResolvedUrls.Perm s.entries :=
  List.mergeSort_perm s.entries _

theorem getAll_sorted (s : MemStorage) :
    s.getAllResolvedUrls.Pairwise fun a b => b.timestamp ≤ a.timestamp := by
  have h := List.sorted_mergeSort timestamp_le_trans timestamp_le_total s.entries
  exact h.imp fun hab => by simpa using hab

theorem getAll_pair_stable (s : MemStorage) (a b : ResolvedUrl)
    (hsub : [a, b].Sublist s.entries) (hts : b.timestamp ≤ a.timestamp) :
    [a, b].Sublist s.getAllResolvedUrls :=
  List.pair_sublist_mergeSort timestamp_le_trans timestamp_le_total
    (by simpa using hts) hsub

/-- Store obtained by two inserts with the same timestamp. -/
def tieStore : MemStorage :=
  ((MemStorage.init.resolveAndStoreUrl "u1" "r1" 100).2.resolveAndStoreUrl "u2" "r2" 100).2

theorem tieStore_entries :
    tieStore.entries = [⟨1, "u1", "r1", 100⟩, ⟨2, "u2", "r2", 100⟩] := rfl

theorem getAll_tieStore : tieStore.getAllResolvedUrls
    = [⟨1, "u1", "r1", 100⟩, ⟨2, "u2", "r2", 100⟩] := by
  have hsub : [(⟨1, "u1", "r1", 100⟩ : ResolvedUrl), ⟨2, "u2", "r2", 100⟩].Sublist
      tieStore.getAllResolvedUrls :=
    getAll_pair_stable tieStore _ _ (tieStore_entries ▸ List.Sublist.refl _) (by decide)
  have hlen : tieStore.getAllResolvedUrls.length = 2 := by
    have h := (getAll_perm tieStore).length_eq
    rw [tieStore_entries] at h
    simpa using h
  exact (List.Sublist.eq_of_length hsub (by rw [hlen]; rfl)).symm

/-- C3 counterexample: after two inserts carrying the same timestamp, the
list endpoint returns the records in insertion order — the record with the
LOWER identifier first — falsifying the claimed higher-id-first tie-break. -/
theorem getAll_higherIdFirst_counterexample :
    tieStore.getAllResolvedUrls = [⟨1, "u1", "r1", 100⟩, ⟨2, "u2", "r2", 100⟩]
      ∧ ¬ specHigherIdFirst tieStore.getAllResolvedUrls :=
  ⟨getAll_tieStore, by rw [getAll_tieStore]; decide⟩

/-- C3 (amended): `getAllResolvedUrls` returns a permutation of the current
records, ordered by creation timestamp most recent first, and the sort is
stable: records whose timestamps do not force a swap — in particular records
with EQUAL timestamps — keep their insertion order, so on a timestamp tie
the record with the lower identifier comes first, as on `tieStore`. -/
theorem getAllResolvedUrls_ordering (s : MemStorage) :
    s.getAllResolvedUrls.Perm s.entries
      ∧ s.getAllResolvedUrls.Pairwise (fun a b => b.timestamp ≤ a.timestamp)
      ∧ (∀ a b : ResolvedUrl, [a, b].Sublist s.entries → b.timestamp ≤ a.timestamp →
          [a, b].Sublist s.getAllResolvedUrls)
      ∧ tieStore.getAllResolvedUrls = [⟨1, "u1", "r1", 100⟩, ⟨2, "u2", "r2", 100⟩] :=
  ⟨getAll_perm s, getAll_sorted s,
   fun a b h1 h2 => getAll_pair_stable s a b h1 h2, getAll_tieStore⟩

theorem getAllResolvedUrls_ordering_witness :
    [(⟨1, "u1", "r1", 100⟩ : ResolvedUrl), ⟨2, "u2", "r2", 100⟩].Sublist
        tieStore.getAllResolvedUrls
      ∧ tieStore.getAllResolvedUrls.Perm tieStore.entries :=
  ⟨(getAllResolvedUrls_ordering tieStore).2.2.1 _ _
      (tieStore_entries ▸ List.Sublist.refl _) (by decide),
   (getAllResolvedUrls_ordering tieStore).1⟩

/-- C4: when the input passes validation and resolves to a URL that already
exists in the store, the resolve-url endpoint answers with the 409 conflict
response and leaves the store exactly as it was: no record is inserted and
`currentId` does not advance. -/
theorem resolveUrlRoute_conflict (V : String → Bool) (W : World) (U : UrlLib)
    (s : MemStorage) (url : String) (now : Nat) (r : String)
    (hv : V url = true)
    (hres : followRedirects W U url 10 = Except.ok r)
    (hex : s.checkUrlExists r = true) :
    resolveUrlRoute V W U s url now = (ResolveResponse.conflict r, s) := by
  simp [resolveUrlRoute, hv, hres, hex]

theorem resolveUrlRoute_conflict_witness :
    resolveUrlRoute (fun _ => true) chainWorld refUrlLib
        ⟨[⟨1, "a.example", "https://b.example", 50⟩], 2⟩ "a.example" 99
      = (ResolveResponse.conflict "https://b.example",
         ⟨[⟨1, "a.example", "https://b.example", 50⟩], 2⟩) :=
  resolveUrlRoute_conflict (fun _ => true) chainWorld refUrlLib
    ⟨[⟨1, "a.example", "https://b.example", 50⟩], 2⟩ "a.example" 99
    "https://b.example" rfl (by decide) (by decide)

theorem issuedIds_increasing : ∀ (ops : List StoreOp) (s : MemStorage),
    (issuedIds s ops).Pairwise (fun i j => i < j)
      ∧ ∀ i ∈ issuedIds s ops, s.currentId ≤ i := by
  intro ops
  induction ops with
  | nil =>
    intro s
    simp [issuedIds]
  | cons op ops ih =>
    intro s
    cases op with
    | resolve o r n =>
      have h := ih (s.resolveAndStoreUrl o r n).2
      constructor
      · refine List.Pairwise.cons ?_ h.1
        intro j hj
        have hle := h.2 j hj
        simp only [MemStorage.resolveAndStoreUrl] at hle
        simp only [issuedIds, MemStorage.resolveAndStoreUrl]
        omega
      · intro i hi
        simp only [issuedIds] at hi
        rcases List.mem_cons.mp hi with rfl | hi
        · simp [MemStorage.resolveAndStoreUrl]
        · have hle := h.2 i hi
          simp only [MemStorage.resolveAndStoreUrl] at hle
          omega
    | clear =>
      have h := ih s.clearAllResolvedUrls
      simpa [issuedIds, MemStorage.clearAllResolvedUrls] using h

/-- C8: along any sequence of resolve and clear operations on one store, the
issued identifiers are strictly increasing in order of issue — hence never
reused, also across clears — and `clearAllResolvedUrls` leaves the identifier
counter untouched. -/
theorem ids_never_reused :
    (∀ ops : List StoreOp, (issuedIds MemStorage.init ops).Pairwise (fun i j => i < j))
      ∧ ∀ s : MemStorage, s.clearAllResolvedUrls.currentId = s.currentId :=
  ⟨fun ops => (issuedIds_increasing ops MemStorage.init).1, fun _ => rfl⟩

/-- C9: `checkUrlExists` answers true exactly when some current record's
resolved URL equals the argument character for character; in particular a
store holding only `https://ex.com` rejects the trailing-slash and
upper-case variants. -/
theorem checkUrlExists_exact :
    (∀ (s : MemStorage) (r : String),
        s.checkUrlExists r = true ↔ ∃ e, e ∈ s.entries ∧ e.resolvedUrl = r)
      ∧ MemStorage.checkUrlExists ⟨[⟨1, "o", "https://ex.com", 5⟩], 2⟩ "https://ex.com"
          = true
      ∧ MemStorage.checkUrlExists ⟨[⟨1, "o", "https://ex.com", 5⟩], 2⟩ "https://ex.com/"
          = false
      ∧ MemStorage.checkUrlExists ⟨[⟨1, "o", "https://ex.com", 5⟩], 2⟩ "https://EX.com"
          = false := by
  refine ⟨?_, by decide, by decide, by decide⟩
  intro s r
  simp [MemStorage.checkUrlExists, List.any_eq_true]

theorem mem_setDedupAux : ∀ (l seen : List String) (x : String),
    x ∈ setDedupAux seen l ↔ x ∈ l ∧ x ∉ seen := by
  intro l
  induction l with
  | nil =>
    intro seen x
    simp [setDedupAux]
  | cons y ys ih =>
    intro seen x
    by_cases hy : y ∈ seen
    · rw [setDedupAux, if_pos hy, ih]
      constructor
      · rintro ⟨h1, h2⟩
        exact ⟨List.mem_cons_of_mem y h1, h2⟩
      · rintro ⟨h1, h2⟩
        rcases List.mem_cons.mp h1 with rfl | h1
        · exact absurd hy h2
        · exact ⟨h1, h2⟩
    · rw [setDedupAux, if_neg hy]
      simp only [List.mem_cons, ih]
      constructor
      · rintro (rfl | ⟨h1, h2⟩)
        · exact ⟨Or.inl rfl, hy⟩
        · exact ⟨Or.inr h1, fun hc => h2 (Or.inr hc)⟩
      · rintro ⟨rfl | h1, h2⟩
        · exact Or.inl rfl
        · by_cases hxy : x = y
          · exact Or.inl hxy
          · exact Or.inr ⟨h1, by simp [List.mem_cons, hxy, h2]⟩

theorem nodup_setDedupAux : ∀ (l seen : List String), (setDedupAux seen l).Nodup := by
  intro l
  induction l with
  | nil => intro seen; simp [setDedupAux]
  | cons y ys ih =>
    intro seen
    by_cases hy : y ∈ seen
    · rw [setDedupAux, if_pos hy]
      exact ih seen
    · rw [setDedupAux, if_neg hy]
      refine List.nodup_cons.mpr ⟨?_, ih (y :: seen)⟩
      intro hc
      exact ((mem_setDedupAux ys (y :: seen) y).mp hc).2 (List.mem_cons_self y seen)

theorem pairwise_indexOf_setDedupAux : ∀ (l seen : List String),
    (setDedupAux seen l).Pairwise fun x y => List.indexOf x l < List.indexOf y l := by
  intro l
  induction l with
  | nil => intro seen; simp [setDedupAux]
  | cons a as ih =>
    intro seen
    by_cases ha : a ∈ seen
    · rw [setDedupAux, if_pos ha]
      refine (ih seen).imp_of_mem ?_
      intro x y hx hy hlt
      have hxa : x ≠ a := fun h => ((mem_setDedupAux as seen x).mp hx).2 (h ▸ ha)
      have hya : y ≠ a := fun h => ((mem_setDedupAux as seen y).mp hy).2 (h ▸ ha)
      rw [List.indexOf_cons_ne as (Ne.symm hxa), List.indexOf_cons_ne as (Ne.symm hya)]
      omega
    · rw [setDedupAux, if_neg ha]
      refine List.pairwise_cons.mpr ⟨?_, ?_⟩
      · intro y hy
        have hmem := (mem_setDedupAux as (a :: seen) y).mp hy
        have hya : y ≠ a := fun h => hmem.2 (h ▸ List.mem_cons_self a seen)
        rw [List.indexOf_cons_self, List.indexOf_cons_ne as (Ne.symm hya)]
        omega
      · refine (ih (a :: seen)).imp_of_mem ?_
        intro x y hx hy hlt
        have hxa : x ≠ a :=
          fun h => ((mem_setDedupAux as (a :: seen) x).mp hx).2 (h ▸ List.mem_cons_self a seen)
        have hya : y ≠ a :=
          fun h => ((mem_setDedupAux as (a :: seen) y).mp hy).2 (h ▸ List.mem_cons_self a seen)
        rw [List.indexOf_cons_ne as (Ne.symm hxa), List.indexOf_cons_ne as (Ne.symm hya)]
        omega

theorem setDedup_mem (l : List String) (x : String) : x ∈ setDedup l ↔ x ∈ l := by
  rw [setDedup, mem_setDedupAux]
  simp

theorem setDedup_nodup (l : List String) : (setDedup l).Nodup :=
  nodup_setDedupAux l []

theorem setDedup_pairwise (l : List String) :
    (setDedup l).Pairwise fun x y => List.indexOf x l < List.indexOf y l :=
  pairwise_indexOf_setDedupAux l []

theorem mergeAllLines_eq_flatten : ∀ (files : List String),
    mergeAllLines files = (files.map processContent).flatten := by
  have haux : ∀ (files : List String) (init : List String),
      files.foldl (fun acc f => acc ++ processContent f) init
        = init ++ (files.map processContent).flatten := by
    intro files
    induction files with
    | nil => intro init; simp
    | cons f fs ih =>
      intro init
      simp only [List.foldl_cons, List.map_cons, List.flatten_cons, ih]
      rw [List.append_assoc]
  intro files
  rw [mergeAllLines, haux]
  simp

/-- C6: analyze-file and merge-files apply the same transform — analyzing one
blob equals merging the one-element list; on any list of blobs, `totalLines`
counts the trimmed non-empty lines across all blobs, `urls` is the list of
unique lines in first-occurrence order (no duplicates, same members, ordered
by first occurrence), `uniqueLines` is its length and `duplicateLines` the
difference; the blob `"a\n\na\nb\n  b  \nc"` yields totals 5/3/2 and
urls `["a", "b", "c"]`. -/
theorem lineSetTransform :
    (∀ content : String, analyzeFileRoute content = mergeFilesRoute [content])
      ∧ (∀ files : List String,
          (mergeFilesRoute files).totalLines = ((files.map processContent).flatten).length
            ∧ (mergeFilesRoute files).urls = setDedup ((files.map processContent).flatten)
            ∧ (mergeFilesRoute files).urls.Nodup
            ∧ (∀ x, x ∈ (mergeFilesRoute files).urls ↔ x ∈ (files.map processContent).flatten)
            ∧ (mergeFilesRoute files).urls.Pairwise (fun x y =>
                List.indexOf x ((files.map processContent).flatten)
                  < List.indexOf y ((files.map processContent).flatten))
            ∧ (mergeFilesRoute files).uniqueLines = (mergeFilesRoute files).urls.length
            ∧ (mergeFilesRoute files).duplicateLines
                = (mergeFilesRoute files).totalLines - (mergeFilesRoute files).uniqueLines)
      ∧ analyzeFileRoute "a\n\na\nb\n  b  \nc" = ⟨5, 3, 2, ["a", "b", "c"]⟩ := by
  refine ⟨?_, ?_, by decide⟩
  · intro content
    simp [analyzeFileRoute, mergeFilesRoute, mergeAllLines]
  · intro files
    have hm := mergeAllLines_eq_flatten files
    refine ⟨by simp [mergeFilesRoute, hm], by simp [mergeFilesRoute, hm],
      by simp [mergeFilesRoute]; exact setDedup_nodup _, ?_, ?_, by simp [mergeFilesRoute],
      by simp [mergeFilesRoute]⟩
    · intro x
      simp only [mergeFilesRoute, hm]
      exact setDedup_mem _ x
    · simp only [mergeFilesRoute, hm]
      exact setDedup_pairwise _

/-- C10: the scheme-prefix check is case-sensitive — any input with an
upper-case letter among its first seven characters (the region a `http://`
or `https://` prefix would occupy) fails both `startsWith` tests and gets
`https://` prepended; in particular `HTTP://example.com` is probed first at
`https://HTTP://example.com`. -/
theorem schemeCheck_caseSensitive :
    (∀ url : String, (∃ c ∈ url.data.take 7, c.isUpper = true) →
        normalizeUrl url = "https://" ++ url)
      ∧ ∀ (W : World) (U : UrlLib),
          (followRedirectsT W U "HTTP://example.com" 10).2.head?
            = some (Method.head, "https://HTTP://example.com") := by
  constructor
  · rintro url ⟨c, hc, hcup⟩
    have h1 : jsStartsWith url "http://" = false := by
      cases hB : jsStartsWith url "http://" with
      | false => rfl
      | true =>
        exfalso
        rw [jsStartsWith_iff] at hB
        obtain ⟨t, hd⟩ := hB
        rw [show ("http://" : String).data
            = 'h' :: 't' :: 't' :: 'p' :: ':' :: '/' :: '/' :: [] from rfl] at hd
        rw [hd] at hc
        rw [show (( 'h' :: 't' :: 't' :: 'p' :: ':' :: '/' :: '/' :: []) ++ t).take 7
            = [ 'h', 't', 't', 'p', ':', '/', '/'] from rfl] at hc
        simp only [List.mem_cons, List.not_mem_nil, or_false] at hc
        rcases hc with rfl | rfl | rfl | rfl | rfl | rfl | rfl <;> exact absurd hcup (by decide)
    have h2 : jsStartsWith url "https://" = false := by
      cases hB : jsStartsWith url "https://" with
      | false => rfl
      | true =>
        exfalso
        rw [jsStartsWith_iff] at hB
        obtain ⟨t, hd⟩ := hB
        rw [show ("https://" : String).data
            = 'h' :: 't' :: 't' :: 'p' :: 's' :: ':' :: '/' :: '/' :: [] from rfl] at hd
        rw [hd] at hc
        rw [show (( 'h' :: 't' :: 't' :: 'p' :: 's' :: ':' :: '/' :: '/' :: []) ++ t).take 7
            = [ 'h', 't', 't', 'p', 's', ':', '/'] from rfl] at hc
        simp only [List.mem_cons, List.not_mem_nil, or_false] at hc
        rcases hc with rfl | rfl | rfl | rfl | rfl | rfl | rfl <;> exact absurd hcup (by decide)
    simp [normalizeUrl, h1, h2]
  · intro W U
    have hn : normalizeUrl "HTTP://example.com" = "https://HTTP://example.com" := by decide
    rw [followRedirectsT, hn]
    exact followLoop_trace_head W U 9 "https://HTTP://example.com"

theorem schemeCheck_caseSensitive_witness :
    normalizeUrl "HTTP://example.com" = "https://" ++ "HTTP://example.com"
      ∧ (followRedirectsT chainWorld refUrlLib "HTTP://example.com" 10).2.head?
          = some (Method.head, "https://HTTP://example.com") :=
  ⟨schemeCheck_caseSensitive.1 "HTTP://example.com" ⟨ 'H', by decide, by decide⟩,
   schemeCheck_caseSensitive.2 chainWorld refUrlLib⟩
